import Mathlib

/-!
Verification of the RESP codec and command dispatcher of a small Redis-like
server (src/main.rs).

Modelling conventions, all translated from the source:

* Rust `&str` values are modelled as `List Char`.  All strings appearing in
  the claims are ASCII, where the Rust byte length (`str::len`) coincides
  with the character count (`List.length`).
* Every Rust panic site (`unwrap` on `None`, explicit `panic!`, `todo!`,
  `unreachable!`) is modelled as an `Except.error` carrying a `Fault`
  constructor naming the panic site, so that theorems can state exactly
  where the code aborts.
* The recursive `decode` function is implemented through `decodeN fuel n s`,
  which decodes `n` consecutive RESP values from `s` (the element loop of
  the `*` branch; a single value when `n = 1`).  The `fuel` argument only
  bounds the recursion depth so that the definition is structurally
  recursive and kernel-computable; `decode` instantiates it with
  `s.length + 1`, which is proven sufficient for all inputs reached by the
  theorems below (the round-trip lemma carries its own fuel bound).
-/

/-- Identifies the Rust panic (or todo) site that aborts execution, or the
artificial fuel-exhaustion outcome of the bounded decoder. -/
inductive Fault where
| emptyInput
| missingCRLF
| badLength
| lengthMismatch
| invalidTag
| outOfFuel
| notArray
| notBulkStringElement
| unreachableBranch
| emptyCommand
| todoSet
| todoGet
| unknownCommand
deriving DecidableEq, Repr

/-- The RESP value type of the source (`enum RespType`): simple strings,
bulk strings (no null variant exists in the code) and arrays. -/
inductive RespType where
| SimpleString (s : List Char)
| BulkString (s : List Char)
| Array (items : List RespType)

/-- Rust `str::split_once("\r\n")`: split at the first occurrence of CRLF,
returning the part before it and the part after it; `none` when the string
contains no CRLF. -/
def splitOnce : List Char → Option (List Char × List Char)
| [] => none
| [_] => none
| c1 :: c2 :: rest =>
  if c1 = '\r' ∧ c2 = '\n' then some ([], rest)
  else (splitOnce (c2 :: rest)).map fun p => (c1 :: p.1, p.2)

/-- Value of one decimal digit character, `none` for a non-digit. -/
def charDigit (c : Char) : Option Nat :=
  if 48 ≤ c.toNat ∧ c.toNat ≤ 57 then some (c.toNat - 48) else none

/-- Left-to-right accumulation of decimal digits; `none` on any non-digit. -/
def parseDigitsAux : List Char → Nat → Option Nat
| [], acc => some acc
| c :: rest, acc =>
  match charDigit c with
  | none => none
  | some d => parseDigitsAux rest (acc * 10 + d)

/-- Rust `str::parse::<usize>()`: an optional leading plus sign followed by
at least one decimal digit; anything else (in particular `-1` and the empty
string) fails. -/
def parseUsize : List Char → Option Nat
| [] => none
| c :: rest =>
  if c = '+' then
    match rest with
    | [] => none
    | _ :: _ => parseDigitsAux rest 0
  else parseDigitsAux (c :: rest) 0

/-- Decimal digit character for a value below ten. -/
def digitChar (d : Nat) : Char := Char.ofNat (48 + d)

/-- Fueled decimal printer; the fuel only makes the recursion structural. -/
def natDigitsF : Nat → Nat → List Char
| 0, _ => []
| f+1, n => if n < 10 then [digitChar n] else natDigitsF f (n / 10) ++ [digitChar (n % 10)]

/-- Rust `format!("{}", n)` for `n : usize`: decimal digits, no sign. -/
def natDigits (n : Nat) : List Char := natDigitsF (n + 1) n

mutual

/-- Rust `resp::encode`: `+s\r\n` for simple strings, `$len\r\ns\r\n` for
bulk strings, `*count\r\n` followed by the encoded elements for arrays. -/
def encode : RespType → List Char
| .SimpleString s => '+' :: s ++ ['\r', '\n']
| .BulkString s => '$' :: natDigits s.length ++ ['\r', '\n'] ++ s ++ ['\r', '\n']
| .Array items => '*' :: natDigits items.length ++ ['\r', '\n'] ++ encodeList items

/-- Concatenation of the encodings of a list of values (the loop in the
`Array` branch of `resp::encode`). -/
def encodeList : List RespType → List Char
| [] => []
| v :: rest => encode v ++ encodeList rest

end

/-- Decode exactly `n` consecutive RESP values from the input (the element
loop of the `*` branch of `resp::decode`; a single value when `n = 1`).
Each branch mirrors the source: `+` reads up to CRLF; `$` reads the length
line, splits the rest at the next CRLF, parses the length and panics
(`Fault.lengthMismatch`) when the split payload has a different length;
`*` reads the count line and decodes that many elements; any other leading
character panics (`Fault.invalidTag`).  The fuel argument only bounds the
recursion depth. -/
def decodeN : Nat → Nat → List Char → Except Fault (List RespType × List Char)
| 0, _, _ => .error .outOfFuel
| _+1, 0, s => .ok ([], s)
| f+1, n+1, s =>
  match s with
  | [] => .error .emptyInput
  | c :: t =>
    if c = '+' then
      match splitOnce t with
      | none => .error .missingCRLF
      | some (v, rest) =>
        match decodeN f n rest with
        | .error e => .error e
        | .ok (vs, rem) => .ok (.SimpleString v :: vs, rem)
    else if c = '$' then
      match splitOnce t with
      | none => .error .missingCRLF
      | some (lenStr, remaining) =>
        match splitOnce remaining with
        | none => .error .missingCRLF
        | some (payload, rem2) =>
          match parseUsize lenStr with
          | none => .error .badLength
          | some len =>
            if payload.length = len then
              match decodeN f n rem2 with
              | .error e => .error e
              | .ok (vs, rem) => .ok (.BulkString payload :: vs, rem)
            else .error .lengthMismatch
    else if c = '*' then
      match splitOnce t with
      | none => .error .missingCRLF
      | some (lenStr, data) =>
        match parseUsize lenStr with
        | none => .error .badLength
        | some len =>
          match decodeN f len data with
          | .error e => .error e
          | .ok (elems, rest) =>
            match decodeN f n rest with
            | .error e => .error e
            | .ok (vs, rem) => .ok (.Array elems :: vs, rem)
    else .error .invalidTag

/-- Rust `resp::decode`: parse one RESP value and return it together with
the unconsumed remainder; an `Except.error` models a panic of the source. -/
def decode (s : List Char) : Except Fault (RespType × List Char) :=
  match decodeN (s.length + 1) 1 s with
  | .error e => .error e
  | .ok (v :: _, rest) => .ok (v, rest)
  | .ok ([], _) => .error .outOfFuel

/-- Rust `server::pingHandler`: wrap the argument in a SimpleString. -/
def pingHandler (arg : List Char) : RespType := .SimpleString arg

/-- Rust `TcpServer::handleCommand`: the first bulk string selects the
command.  PING replies with its first argument (default PONG), extra
arguments are ignored; SET and GET are `todo!()`; anything else panics. -/
def handleCommand (vector : List (List Char)) : Except Fault RespType :=
  match vector with
  | [] => .error .emptyCommand
  | command :: args =>
    if command = "PING".data then
      .ok (pingHandler (match args with | [] => "PONG".data | a :: _ => a))
    else if command = "SET".data then .error .todoSet
    else if command = "GET".data then .error .todoGet
    else .error .unknownCommand

/-- The element loop of `TcpServer::handleRequest`: collect the contents of
the bulk strings of the decoded array, panicking at the first element that
is not a bulk string. -/
def toBulkVector : List RespType → Except Fault (List (List Char))
| [] => .ok []
| .BulkString s :: rest =>
  match toBulkVector rest with
  | .error e => .error e
  | .ok vector => .ok (s :: vector)
| _ :: _ => .error .notBulkStringElement

/-- Rust `TcpServer::handleRequest`: panic unless the request starts with
`*`, decode it (discarding the remainder), collect the bulk-string
elements, execute the command and RESP-encode the reply. -/
def handleRequest (request : List Char) : Except Fault (List Char) :=
  match request with
  | [] => .error .emptyInput
  | c :: _ =>
    if c ≠ '*' then .error .notArray
    else
      match decode request with
      | .error e => .error e
      | .ok (.Array array, _) =>
        match toBulkVector array with
        | .error e => .error e
        | .ok vector =>
          match handleCommand vector with
          | .error e => .error e
          | .ok respType => .ok (encode respType)
      | .ok (.SimpleString _, _) => .error .unreachableBranch
      | .ok (.BulkString _, _) => .error .unreachableBranch

/-- True when the string contains neither a CR nor an LF character (the
restriction the RESP wire format places on embedded simple strings). -/
def crlfFree (s : List Char) : Bool :=
  decide ('\r' ∉ s) && decide ('\n' ∉ s)

mutual

/-- True when every string embedded in the value is free of CR and LF. -/
def noCRLF : RespType → Bool
| .SimpleString s => crlfFree s
| .BulkString s => crlfFree s
| .Array items => noCRLFList items

/-- `noCRLF` for every element of a list of values. -/
def noCRLFList : List RespType → Bool
| [] => true
| v :: rest => noCRLF v && noCRLFList rest

end

theorem splitOnce_append (a b : List Char) (h : '\r' ∉ a) :
    splitOnce (a ++ '\r' :: '\n' :: b) = some (a, b) := by
  induction a with
  | nil => simp [splitOnce]
  | cons x a ih =>
    simp only [List.mem_cons, not_or] at h
    obtain ⟨hx, ha⟩ := h
    cases a with
    | nil => simp [splitOnce, hx]
    | cons y a2 =>
      have hrec := ih ha
      have hx2 : ¬(x = '\r' ∧ y = '\n') := fun hh => hx hh.1.symm
      simp only [List.cons_append] at hrec ⊢
      simp [splitOnce, hx2, hrec]

theorem natDigitsF_irrel : ∀ f g n, n < f → n < g → natDigitsF f n = natDigitsF g n := by
  intro f
  induction f with
  | zero => intro g n h; omega
  | succ f ih =>
    intro g n hf hg
    cases g with
    | zero => omega
    | succ g =>
      by_cases h10 : n < 10
      · simp [natDigitsF, h10]
      · have hdiv : n / 10 < n := Nat.div_lt_self (by omega) (by omega)
        simp only [natDigitsF, if_neg h10]
        rw [ih g (n / 10) (by omega) (by omega)]

theorem natDigits_lt10 (n : Nat) (h : n < 10) : natDigits n = [digitChar n] := by
  simp [natDigits, natDigitsF, h]

theorem natDigits_ge10 (n : Nat) (h : 10 ≤ n) :
    natDigits n = natDigits (n / 10) ++ [digitChar (n % 10)] := by
  have hdiv : n / 10 < n := Nat.div_lt_self (by omega) (by omega)
  have h1 : natDigits n = natDigitsF n (n / 10) ++ [digitChar (n % 10)] := by
    simp [natDigits, natDigitsF, Nat.not_lt.mpr h]
  rw [h1, natDigitsF_irrel n (n / 10 + 1) (n / 10) (by omega) (by omega)]
  rfl

theorem digitChar_range (d : Nat) (h : d < 10) :
    48 ≤ (digitChar d).toNat ∧ (digitChar d).toNat ≤ 57 := by
  interval_cases d <;> decide

theorem natDigits_digits (n : Nat) : ∀ c ∈ natDigits n, 48 ≤ c.toNat ∧ c.toNat ≤ 57 := by
  induction n using Nat.strong_induction_on with
  | _ n ih =>
    by_cases h10 : n < 10
    · rw [natDigits_lt10 n h10]
      intro c hc
      simp only [List.mem_singleton] at hc
      subst hc
      exact digitChar_range n h10
    · rw [natDigits_ge10 n (by omega)]
      intro c hc
      rcases List.mem_append.mp hc with hl | hr
      · exact ih (n / 10) (Nat.div_lt_self (by omega) (by omega)) c hl
      · simp only [List.mem_singleton] at hr
        subst hr
        exact digitChar_range (n % 10) (Nat.mod_lt _ (by omega))

theorem natDigits_ne_nil (n : Nat) : natDigits n ≠ [] := by
  by_cases h10 : n < 10
  · rw [natDigits_lt10 n h10]; simp
  · rw [natDigits_ge10 n (by omega)]; simp

theorem natDigits_no_cr (n : Nat) : '\r' ∉ natDigits n := by
  intro hmem
  have h13 : ('\r').toNat = 13 := rfl
  have := natDigits_digits n '\r' hmem
  omega

theorem charDigit_digitChar (d : Nat) (h : d < 10) : charDigit (digitChar d) = some d := by
  interval_cases d <;> decide

theorem parseDigitsAux_append (a b : List Char) :
    ∀ acc, parseDigitsAux (a ++ b) acc =
      (parseDigitsAux a acc).bind (fun acc2 => parseDigitsAux b acc2) := by
  induction a with
  | nil => intro acc; simp [parseDigitsAux]
  | cons c a ih =>
    intro acc
    simp only [List.cons_append, parseDigitsAux]
    cases charDigit c with
    | none => simp
    | some d => simp [ih]

theorem parseDigitsAux_natDigits (n : Nat) :
    ∀ acc, parseDigitsAux (natDigits n) acc =
      some (acc * 10 ^ (natDigits n).length + n) := by
  induction n using Nat.strong_induction_on with
  | _ n ih =>
    intro acc
    by_cases h10 : n < 10
    · rw [natDigits_lt10 n h10]
      simp [parseDigitsAux, charDigit_digitChar n h10]
    · rw [natDigits_ge10 n (by omega)]
      rw [parseDigitsAux_append]
      rw [ih (n / 10) (Nat.div_lt_self (by omega) (by omega)) acc]
      simp only [Option.some_bind]
      rw [show parseDigitsAux [digitChar (n % 10)]
            (acc * 10 ^ (natDigits (n / 10)).length + n / 10)
          = some ((acc * 10 ^ (natDigits (n / 10)).length + n / 10) * 10 + n % 10) by
        simp [parseDigitsAux, charDigit_digitChar (n % 10) (Nat.mod_lt _ (by omega))]]
      congr 1
      rw [List.length_append, List.length_singleton, pow_succ, ← mul_assoc]
      generalize acc * 10 ^ (natDigits (n / 10)).length = K
      omega

theorem parseUsize_natDigits (n : Nat) : parseUsize (natDigits n) = some n := by
  obtain ⟨c, r, hc⟩ := List.exists_cons_of_ne_nil (natDigits_ne_nil n)
  have hmem : c ∈ natDigits n := by rw [hc]; exact List.mem_cons_self _ _
  have hd := natDigits_digits n c hmem
  have hplus : c ≠ '+' := by
    intro h
    subst h
    revert hd
    decide
  rw [hc]
  simp only [parseUsize, if_neg hplus]
  rw [← hc, parseDigitsAux_natDigits n 0]
  simp

theorem crlfFree_no_cr {s : List Char} (h : crlfFree s = true) : '\r' ∉ s := by
  simp only [crlfFree, Bool.and_eq_true, decide_eq_true_eq] at h
  exact h.1

theorem encode_length_pos (v : RespType) : 3 ≤ (encode v).length := by
  cases v <;> simp [encode] <;> omega

theorem decodeN_encodeList :
    ∀ (f : Nat) (vs : List RespType) (rest : List Char),
      (encodeList vs).length < f → noCRLFList vs = true →
      decodeN f vs.length (encodeList vs ++ rest) = .ok (vs, rest) := by
  intro f
  induction f with
  | zero => intro vs rest hlen hcr; omega
  | succ f ih =>
    intro vs rest hlen hcr
    cases vs with
    | nil => simp [encodeList, decodeN]
    | cons v vs2 =>
      simp only [noCRLFList, Bool.and_eq_true] at hcr
      obtain ⟨hv, hvs2⟩ := hcr
      simp only [encodeList, List.length_append] at hlen
      have hlen2 : (encodeList vs2).length < f := by
        have := encode_length_pos v
        omega
      have hih := ih vs2 rest hlen2 hvs2
      cases v with
      | SimpleString s =>
        have hr : '\r' ∉ s := crlfFree_no_cr hv
        have hsp : splitOnce (s ++ '\r' :: '\n' :: (encodeList vs2 ++ rest))
            = some (s, encodeList vs2 ++ rest) := splitOnce_append _ _ hr
        simp [encodeList, encode, decodeN, hsp, hih]
      | BulkString s =>
        have hr : '\r' ∉ s := crlfFree_no_cr hv
        have hsp1 : splitOnce (natDigits s.length
              ++ '\r' :: '\n' :: (s ++ '\r' :: '\n' :: (encodeList vs2 ++ rest)))
            = some (natDigits s.length, s ++ '\r' :: '\n' :: (encodeList vs2 ++ rest)) :=
          splitOnce_append _ _ (natDigits_no_cr s.length)
        have hsp2 : splitOnce (s ++ '\r' :: '\n' :: (encodeList vs2 ++ rest))
            = some (s, encodeList vs2 ++ rest) := splitOnce_append _ _ hr
        have hpu := parseUsize_natDigits s.length
        simp [encodeList, encode, decodeN, hsp1, hsp2, hpu, hih]
      | Array items =>
        simp only [noCRLF] at hv
        have hsp : splitOnce (natDigits items.length
              ++ '\r' :: '\n' :: (encodeList items ++ (encodeList vs2 ++ rest)))
            = some (natDigits items.length, encodeList items ++ (encodeList vs2 ++ rest)) :=
          splitOnce_append _ _ (natDigits_no_cr items.length)
        have hpu := parseUsize_natDigits items.length
        have hlenItems : (encodeList items).length < f := by
          have h1 : 1 ≤ (natDigits items.length).length := by
            have h2 := natDigits_ne_nil items.length
            cases hnd : natDigits items.length with
            | nil => exact absurd hnd h2
            | cons a b => simp
          simp only [encode, List.length_cons, List.length_append] at hlen
          omega
        have hihItems := ih items (encodeList vs2 ++ rest) hlenItems hv
        simp [encodeList, encode, decodeN, hsp, hpu, hihItems, hih]

/-- C1: for every RESP value whose embedded strings satisfy the CR/LF
restriction (no CR and no LF characters), decoding the encoding returns the
value itself with an empty remainder. -/
theorem C1_decode_encode_roundtrip (v : RespType) (h : noCRLF v = true) :
    decode (encode v) = .ok (v, []) := by
  have he : encodeList [v] = encode v := by simp [encodeList]
  have hd := decodeN_encodeList ((encode v).length + 1) [v] []
    (by rw [he]; omega) (by simp [noCRLFList, h])
  rw [he, List.append_nil] at hd
  simp only [List.length_cons, List.length_nil] at hd
  simp [decode, hd]

/-- Witness for C1 at a concrete nested value. -/
theorem C1_roundtrip_witness :
    noCRLF (.Array [.BulkString "SET".data, .SimpleString "ok".data]) = true ∧
    decode (encode (.Array [.BulkString "SET".data, .SimpleString "ok".data]))
      = .ok (.Array [.BulkString "SET".data, .SimpleString "ok".data], []) :=
  ⟨rfl, C1_decode_encode_roundtrip _ rfl⟩

/-- C5 counterexample: for the value v1 = SimpleString "\r\n" (no CR/LF
restriction was stated by the claim) and v2 = SimpleString "x", decoding
the concatenation of the encodings does not return v1 with remainder
encode v2: the decoder stops at the first CRLF and returns
SimpleString "". -/
theorem C5_pipelining_counterexample :
    decode (encode (.SimpleString "\r\n".data) ++ encode (.SimpleString "x".data))
      ≠ .ok (.SimpleString "\r\n".data, encode (.SimpleString "x".data)) := by
  intro h
  have h2 : decode (encode (.SimpleString "\r\n".data) ++ encode (.SimpleString "x".data))
      = .ok (.SimpleString [], "\r\n+x\r\n".data) := rfl
  rw [h2] at h
  simp at h

/-- C5 amended: for every pair of RESP values that satisfy the CR/LF
restriction, decoding the concatenation of their encodings yields the first
value with exactly the second encoding as remainder, and decoding that
remainder yields the second value with empty remainder. -/
theorem C5_pipelining_amended (v1 v2 : RespType)
    (h1 : noCRLF v1 = true) (h2 : noCRLF v2 = true) :
    decode (encode v1 ++ encode v2) = .ok (v1, encode v2) ∧
    decode (encode v2) = .ok (v2, []) := by
  constructor
  · have he : encodeList [v1] = encode v1 := by simp [encodeList]
    have hd := decodeN_encodeList ((encode v1 ++ encode v2).length + 1) [v1] (encode v2)
      (by rw [he, List.length_append]; omega) (by simp [noCRLFList, h1])
    rw [he] at hd
    simp only [List.length_cons, List.length_nil, List.length_append, Nat.zero_add] at hd
    simp [decode, hd]
  · have he : encodeList [v2] = encode v2 := by simp [encodeList]
    have hd := decodeN_encodeList ((encode v2).length + 1) [v2] []
      (by rw [he]; omega) (by simp [noCRLFList, h2])
    rw [he, List.append_nil] at hd
    simp only [List.length_cons, List.length_nil] at hd
    simp [decode, hd]

/-- Witness for C5 amended at concrete values. -/
theorem C5_pipelining_amended_witness :
    noCRLF (.SimpleString "PONG".data) = true ∧
    noCRLF (.BulkString "x".data) = true ∧
    (decode (encode (.SimpleString "PONG".data) ++ encode (.BulkString "x".data))
        = .ok (.SimpleString "PONG".data, encode (.BulkString "x".data)) ∧
      decode (encode (.BulkString "x".data)) = .ok (.BulkString "x".data, [])) :=
  ⟨rfl, rfl, C5_pipelining_amended _ _ rfl rfl⟩

/-- C2 counterexample: decoding the five bytes of the RESP null bulk string
produces no value at all (the source panics), so decode of that input does
not produce a null BulkString. -/
theorem C2_nullBulk_counterexample : (decode "$-1\r\n".data).isOk = false := rfl

/-- C2 amended: the code supports no null bulk string: RespType has no
absent-BulkString variant, decoding the input dollar minus one CRLF panics
at the missing payload terminator (the second split_once fails), and no
RespType value encodes to those five bytes. -/
theorem C2_nullBulk_amended :
    decode "$-1\r\n".data = .error .missingCRLF ∧
    ∀ v : RespType, encode v ≠ "$-1\r\n".data := by
  refine ⟨rfl, ?_⟩
  intro v hEq
  have hlit : "$-1\r\n".data = ['$', '-', '1', '\r', '\n'] := rfl
  rw [hlit] at hEq
  cases v with
  | SimpleString s => simp [encode] at hEq
  | Array items =>
    obtain ⟨c, r, hc⟩ := List.exists_cons_of_ne_nil (natDigits_ne_nil items.length)
    have hcm : c ∈ natDigits items.length := by rw [hc]; exact List.mem_cons_self _ _
    have hd := natDigits_digits items.length c hcm
    simp [encode] at hEq
  | BulkString s =>
    obtain ⟨c, r, hc⟩ := List.exists_cons_of_ne_nil (natDigits_ne_nil s.length)
    have hcm : c ∈ natDigits s.length := by rw [hc]; exact List.mem_cons_self _ _
    have hd := natDigits_digits s.length c hcm
    simp only [encode, hc, List.cons_append, List.append_assoc, List.cons.injEq] at hEq
    obtain ⟨-, hcEq, -⟩ := hEq
    rw [hcEq] at hd
    have h45 : ('-').toNat = 45 := rfl
    omega

/-- Witness for the universally quantified part of C2 amended. -/
theorem C2_nullBulk_amended_witness :
    encode (.SimpleString "OK".data) ≠ "$-1\r\n".data :=
  C2_nullBulk_amended.2 _

/-- C3: the source never stores anything: the SET and GET arms of
handleCommand are todo macros, so a SET request panics with the
not-yet-implemented todo instead of replying +OK, and a GET request
likewise panics instead of replying with a bulk string. -/
theorem C3_set_get_unimplemented :
    handleRequest "*3\r\n$3\r\nSET\r\n$3\r\nfoo\r\n$3\r\nbar\r\n".data = .error .todoSet ∧
    handleRequest "*2\r\n$3\r\nGET\r\n$3\r\nfoo\r\n".data = .error .todoGet :=
  ⟨rfl, rfl⟩

/-- C4 counterexample: a request naming an unknown command makes the
handling code abort (the catch-all arm of handleCommand panics); no error
value is returned to the client. -/
theorem C4_unknownCommand_aborts :
    handleRequest "*1\r\n$3\r\nFOO\r\n".data = .error .unknownCommand := rfl

/-- C4 amended: malformed input makes each stage abort (panic) rather than
return an error reply: a non-star leading byte panics in handleRequest, a
non-BulkString array element panics in the element loop, an unknown
command name panics in handleCommand, and an invalid type tag panics in
decode.  RespType has no Error variant, so no RESP error reply exists. -/
theorem C4_malformed_input_panics :
    handleRequest "x".data = .error .notArray ∧
    handleRequest "*1\r\n+ok\r\n".data = .error .notBulkStringElement ∧
    handleRequest "*1\r\n$3\r\nFOO\r\n".data = .error .unknownCommand ∧
    decode "x".data = .error .invalidTag :=
  ⟨rfl, rfl, rfl, rfl⟩

/-- C6: decoding the input with declared bulk length 3 but a two-byte
payload fails at the explicit length check of the dollar branch (the
panic modelled by Fault.lengthMismatch) and produces no BulkString. -/
theorem C6_length_mismatch :
    decode "$3\r\nab\r\n".data = .error .lengthMismatch := rfl

/-- C7: bulk strings are not binary safe in the source: the encoding of the
four-character payload a CR LF b is the well-formed frame below, yet
decoding that frame panics at the length check, because the payload is
split at its first interior CRLF (one character instead of four) rather
than being read by the declared length. -/
theorem C7_bulk_crlf_payload_panics :
    encode (.BulkString "a\r\nb".data) = "$4\r\na\r\nb\r\n".data ∧
    decode "$4\r\na\r\nb\r\n".data = .error .lengthMismatch :=
  ⟨rfl, rfl⟩

/-- C8: a one-element PING request yields exactly +PONG CRLF, and a
two-element PING request echoes its argument verbatim as a SimpleString,
yielding +hello CRLF. -/
theorem C8_ping_semantics :
    handleRequest "*1\r\n$4\r\nPING\r\n".data = .ok "+PONG\r\n".data ∧
    handleRequest "*2\r\n$4\r\nPING\r\n$5\r\nhello\r\n".data = .ok "+hello\r\n".data :=
  ⟨rfl, rfl⟩

/-- C9 counterexample: a PING with two arguments does not fail with any
arity error: it produces the reply SimpleString of the first argument. -/
theorem C9_ping_two_args_counterexample :
    handleCommand ["PING".data, "a".data, "b".data] = .ok (.SimpleString "a".data) := rfl

/-- C9 amended: PING performs no arity check: with no argument it replies
PONG, and with one or more arguments it echoes the first argument and
silently ignores the rest. -/
theorem C9_ping_ignores_extra_args :
    handleCommand ["PING".data] = .ok (.SimpleString "PONG".data) ∧
    ∀ (a : List Char) (rest : List (List Char)),
      handleCommand ("PING".data :: a :: rest) = .ok (.SimpleString a) :=
  ⟨rfl, fun _ _ => rfl⟩

/-- C10: command dispatch is case-sensitive: any first element other than
the exact uppercase PING, SET or GET reaches the catch-all unrecognized
arm, in particular the lowercase spellings, while the uppercase names are
recognized (PING executes; SET and GET reach their own todo arms). -/
theorem C10_case_sensitive_dispatch :
    (∀ (cmd : List Char) (args : List (List Char)),
        cmd ≠ "PING".data → cmd ≠ "SET".data → cmd ≠ "GET".data →
        handleCommand (cmd :: args) = .error .unknownCommand) ∧
    handleCommand ["ping".data] = .error .unknownCommand ∧
    handleCommand ["set".data, "k".data, "v".data] = .error .unknownCommand ∧
    handleCommand ["get".data, "k".data] = .error .unknownCommand ∧
    handleCommand ["PING".data] = .ok (.SimpleString "PONG".data) ∧
    handleCommand ["SET".data, "k".data, "v".data] = .error .todoSet ∧
    handleCommand ["GET".data, "k".data] = .error .todoGet := by
  refine ⟨?_, rfl, rfl, rfl, rfl, rfl, rfl⟩
  intro cmd args h1 h2 h3
  simp [handleCommand, h1, h2, h3]

/-- Witness for the universally quantified part of C10. -/
theorem C10_case_sensitive_witness :
    handleCommand ["echo".data] = .error .unknownCommand :=
  C10_case_sensitive_dispatch.1 "echo".data [] (by decide) (by decide) (by decide)
